import Mathlib

/-!
# Token registry service (`api/cmd/api/main.go`)

A shallow embedding of the two HTTP handlers of the service, `handleGetToken`
and `handlePostToken`, together with the helpers `canParseInt`,
`getRandomFileName` and `getFileExtension`.

Conventions of the embedding.

* A Go `string` is a Lean `String`.  Every test the program makes on the
  contents of a string looks for an ASCII character (`+`, `-`, `.`, a digit),
  so working on characters instead of bytes does not change any result.
* A byte is a natural number below 256.
* The package-level map `idToToken` and the files below the working directory
  form the state, which every handler receives and returns.
* What the environment decides (the bytes delivered by the random source,
  whether `os.Create` and `io.Copy` succeed) is an explicit input.
* Functions of the Go standard library and of the `uuid` and `echo` packages
  are not part of the source tree; the fragments the handlers use are modelled
  here from their documented behaviour, each next to its call site.
-/

namespace NftExample

/-! ## Data model -/

/-- A byte, as a natural number below 256. -/
abbrev Byte := Nat

/-- The `Token` struct. -/
structure Token where
  Id : String
  Name : String
  Description : String
  ExternalUrl : String
  Image : String
deriving DecidableEq, Repr

deriving instance DecidableEq for Except

/-- A Go map with string keys, as an association list.  Only `mapGet` and
`mapSet` touch it. -/
abbrev GoMap (β : Type) := List (String × β)

/-- Reading `m[k]` in the two-result form `v, ok := m[k]`. -/
def mapGet {β : Type} : GoMap β → String → Option β
  | [], _ => none
  | (k', v) :: rest, k => if k' = k then some v else mapGet rest k

/-- The assignment `m[k] = v`: an earlier entry under `k` is replaced. -/
def mapSet {β : Type} (m : GoMap β) (k : String) (v : β) : GoMap β :=
  (k, v) :: m.filter (fun e => !decide (e.1 = k))

/-- Number of entries a map holds under the key `k`. -/
def mapCount {β : Type} (m : GoMap β) (k : String) : Nat :=
  (m.filter (fun e => decide (e.1 = k))).length

/-! ## `canParseInt` and `(*big.Int).SetString` -/

/-- Part of the model of `SetString` below, the function `scanSign` of
`math/big`: reads one byte, fails at the end of the input, consumes a sign and
puts any other byte back. -/
def scanSign : List Char → Option (Bool × List Char)
  | [] => none
  | ch :: rest =>
    if ch = '-' then some (true, rest)
    else if ch = '+' then some (false, rest)
    else some (false, ch :: rest)

/-- Part of the model of `SetString` below: the digit value `nat.scan` gives to
a byte for a base of at most 36; a byte that is no digit gets
`MaxBase + 1 = 63`. -/
def digitVal (ch : Char) : Nat :=
  if '0' ≤ ch ∧ ch ≤ '9' then ch.toNat - '0'.toNat
  else if 'a' ≤ ch ∧ ch ≤ 'z' then ch.toNat - 'a'.toNat + 10
  else if 'A' ≤ ch ∧ ch ≤ 'Z' then ch.toNat - 'A'.toNat + 10
  else 63

/-- Part of the model of `SetString` below, the digit loop of `nat.scan` for a
fixed base `b` (no fraction, no separators): accumulates digits until the first byte that is not a digit of
base `b`, which is put back.  Returns the value, the number of digits read and
the unread input. -/
def natScan (b : Nat) : List Char → Nat → Nat → Nat × Nat × List Char
  | [], z, count => (z, count, [])
  | ch :: rest, z, count =>
    if digitVal ch ≥ b then (z, count, ch :: rest)
    else natScan b rest (z * b + digitVal ch) (count + 1)

/-- Modelled from the spec: `(*big.Int).SetString(s, base)` belongs to the Go
standard library, which is not in the source tree.  The spec asks for a
base-10 integer literal of arbitrary precision; this model follows the
library: `scanSign`, then the digits, at least one of which is required, and
the whole input must have been consumed.  For a base other than 0 an
underscore is an ordinary non-digit. -/
def bigIntSetString (s : String) (base : Nat) : Option Int :=
  match scanSign s.data with
  | none => none
  | some (neg, rest) =>
    match natScan base rest 0 0 with
    | (z, count, unread) =>
      if count = 0 then none
      else if unread ≠ [] then none
      else some (if neg then -(z : Int) else (z : Int))

/-- The function `canParseInt`. -/
def canParseInt (value : String) : Bool :=
  (bigIntSetString value 10).isSome

/-- A decimal digit. -/
def isDecimalDigit (c : Char) : Bool :=
  decide ('0' ≤ c) && decide (c ≤ '9')

/-- One or more decimal digits. -/
def isDigits (cs : List Char) : Bool :=
  !cs.isEmpty && cs.all isDecimalDigit

/-- The spec's "valid base-10 integer literal": an optional sign followed by
one or more decimal digits, of any length. -/
def isBase10Literal (s : String) : Bool :=
  match s.data with
  | [] => false
  | c :: cs => if c = '+' ∨ c = '-' then isDigits cs else isDigits (c :: cs)

/-! ## `getFileExtension` and `strings.Split` -/

/-- Splitting a sequence at every occurrence of one separator character; the
result is never empty. -/
def splitChars (sep : Char) : List Char → List (List Char)
  | [] => [[]]
  | c :: cs =>
    if c = sep then [] :: splitChars sep cs
    else
      match splitChars sep cs with
      | [] => [[c]]
      | seg :: segs => (c :: seg) :: segs

/-- Modelled from the spec: `strings.Split(s, sep)` of the Go standard library
for a separator of one character, the only way the source calls it.  The spec
speaks of dot-separated segments: the pieces of `s` between consecutive
separators, in order, `[s]` when `s` holds no separator. -/
def stringsSplit (s : String) (sep : Char) : List String :=
  (splitChars sep s.data).map String.mk

/-- The function `getFileExtension`. -/
def getFileExtension (filename : String) : String :=
  let arr := stringsSplit filename '.'
  if arr.length > 1 then arr.getD (arr.length - 1) "" else ""

/-- The part of a string after its last dot (the whole string when it has no
dot): the final dot-separated segment. -/
def finalSegment (s : String) : String :=
  String.mk (s.data.reverse.takeWhile (fun c => decide (c ≠ '.'))).reverse

/-! ## `getRandomFileName` and the `uuid` package -/

/-- Part of the model of `uuid.NewRandom` below, the call `io.ReadFull(r, buf)`
for a buffer of `n` bytes, the reader being given by the bytes it still holds:
an error when fewer than `n` are left, `EOF` when none is. -/
def ioReadFull (r : List Byte) (n : Nat) : Except String (List Byte) :=
  if r.length < n then .error (if r.length = 0 then "EOF" else "unexpected EOF")
  else .ok ((r.take n).map (fun b => b % 256))

/-- Modelled from the spec: `uuid.NewRandom` of the `uuid` package, which is
not in the source tree.  The spec asks for a random 128-bit identifier; the
library fills 16 bytes from the random source `rander` and sets the version and
variant bits. -/
def uuidNewRandom (rander : List Byte) : Except String (List Byte) :=
  match ioReadFull rander 16 with
  | .error err => .error err
  | .ok uuid =>
    let uuid := uuid.set 6 ((uuid.getD 6 0 &&& 0x0f) ||| 0x40)
    let uuid := uuid.set 8 ((uuid.getD 8 0 &&& 0x3f) ||| 0x80)
    .ok uuid

/-- Part of the model of `UUID.String` below: the table `hextable` of
`encoding/hex`. -/
def hextable : List Char := "0123456789abcdef".data

/-- Part of the model of `UUID.String` below, the function `hex.Encode`: two
lower-case hexadecimal digits per byte. -/
def hexEncode (src : List Byte) : List Char :=
  src.flatMap (fun v => [hextable.getD (v / 16) '0', hextable.getD (v % 16) '0'])

/-- Modelled from the spec: `UUID.String` of the `uuid` package, the standard
textual form `xxxxxxxx-xxxx-xxxx-xxxx-xxxxxxxxxxxx` of the 16 bytes. -/
def uuidString (uuid : List Byte) : String :=
  String.mk (hexEncode (uuid.take 4) ++ '-' :: hexEncode ((uuid.drop 4).take 2)
    ++ '-' :: hexEncode ((uuid.drop 6).take 2) ++ '-' :: hexEncode ((uuid.drop 8).take 2)
    ++ '-' :: hexEncode (uuid.drop 10))

/-- The function `getRandomFileName`; `rander` is what the random source
delivers to this call. -/
def getRandomFileName (rander : List Byte) : Except String String :=
  match uuidNewRandom rander with
  | .error err => .error err
  | .ok uuidObj => .ok (uuidString uuidObj)

/-! ## Requests, state and outcomes -/

/-- A `multipart.FileHeader` as the handler uses it: the field `Filename` as
`FormFile` delivers it and the result of `Open`, the uploaded bytes or an
error. -/
structure FileHeader where
  Filename : String
  Open : Except String (List Byte)
deriving DecidableEq

/-- What `handlePostToken` reads from its context: the four form values (an
absent field reads as the empty string), the result of `FormFile("image")` and
the `Host` of the request. -/
structure PostRequest where
  id : String
  name : String
  description : String
  externalUrl : String
  image : Except String FileHeader
  Host : String

/-- What the environment decides during one `handlePostToken` call: the bytes
of the random source, the error of `os.Create` if it fails, and for a failing
`io.Copy` the number of bytes written before the error. -/
structure Env where
  rander : List Byte
  create : Option String
  copy : Option (Nat × String)

/-- The state of the service: the map `idToToken` and the files below the
working directory, by path. -/
structure State where
  idToToken : GoMap Token
  files : GoMap (List Byte)
deriving DecidableEq

/-- How a handler ends. -/
inductive Outcome where
  /-- The handler wrote `ctx.JSON(code, token)` and returned its result. -/
  | json (code : Nat) (token : Token)
  /-- The handler returned `echo.NewHTTPError(code, message)`. -/
  | httpError (code : Nat) (message : String)
  /-- The handler returned an error that is not an `*echo.HTTPError`. -/
  | error (err : String)
  /-- The handler panicked. -/
  | panic (err : String)
deriving DecidableEq, Repr

def StatusOK : Nat := 200
def StatusCreated : Nat := 201
def StatusBadRequest : Nat := 400
def StatusNotFound : Nat := 404
def StatusInternalServerError : Nat := 500

/-- Modelled from the spec: the HTTP status the client receives is decided by
the `echo` package, which is not in the source tree.  The spec maps
InvalidArgument to 400, NotFound to 404 and Internal to 500, and has panics
converted to a generic 500: echo's default error handler answers an
`*echo.HTTPError` with its code and any other error with 500, and a panic is
caught by `middleware.Recover`, installed in `main`, and handed to the same
error handler. -/
def Outcome.status : Outcome → Nat
  | .json code _ => code
  | .httpError code _ => code
  | .error _ => StatusInternalServerError
  | .panic _ => StatusInternalServerError

/-! ## The handlers -/

/-- Modelled from the spec: the call
`echo.PathParamsBinder(ctx).String(name, &dest).BindError()` of the `echo`
package, which is not in the source tree.  The spec takes the id from the
path: an empty parameter leaves `dest` as it is, and binding a string never
fails. -/
def bindPathParamString (value dest : String) : String × Option String :=
  if value = "" then (dest, none) else (value, none)

/-- The function `handleGetToken`; `param` is the path parameter `id`. -/
def handleGetToken (st : State) (param : String) : Outcome :=
  match bindPathParamString param "" with
  | (_, some _) => .httpError StatusBadRequest "failed to parse id"
  | (idParam, none) =>
    if !canParseInt idParam then .httpError StatusBadRequest "failed to parse id"
    else
      match mapGet st.idToToken idParam with
      | none => .httpError StatusNotFound "not found"
      | some token => .json StatusOK token

/-- The path below the storage root that `handlePostToken` builds from the
random name and the extension. -/
def buildFilePath (fileName fileEx : String) : String :=
  if fileEx.length > 0 then "images/" ++ fileName ++ "." ++ fileEx
  else "images/" ++ fileName

/-- The function `handlePostToken`. -/
def handlePostToken (st : State) (req : PostRequest) (env : Env) : State × Outcome :=
  if !canParseInt req.id then (st, .httpError StatusBadRequest "failed to parse id")
  else
    match req.image with
    | .error _ => (st, .httpError StatusBadRequest "missing file")
    | .ok file =>
      match file.Open with
      | .error _ => (st, .httpError StatusBadRequest "failed to open file")
      | .ok src =>
        match getRandomFileName env.rander with
        | .error err => (st, .panic err)
        | .ok fileName =>
          let fileEx := getFileExtension file.Filename
          let filePath := buildFilePath fileName fileEx
          match env.create with
          | some err => (st, .error err)
          | none =>
            match env.copy with
            | some (written, err) =>
              ({ st with files := mapSet st.files ("tmp/" ++ filePath) (src.take written) },
                .error err)
            | none =>
              let token : Token :=
                { Id := req.id
                  Name := req.name
                  Description := req.description
                  ExternalUrl := req.externalUrl
                  Image := "https://" ++ req.Host ++ "/" ++ filePath }
              ({ idToToken := mapSet st.idToToken req.id token
                 files := mapSet st.files ("tmp/" ++ filePath) src },
                .json StatusCreated token)

/-- The record `handlePostToken` builds for the file path `filePath`. -/
def builtToken (req : PostRequest) (filePath : String) : Token :=
  { Id := req.id
    Name := req.name
    Description := req.description
    ExternalUrl := req.externalUrl
    Image := "https://" ++ req.Host ++ "/" ++ filePath }

/-- The state `handlePostToken` leaves after storing `src` at `filePath`. -/
def registered (st : State) (req : PostRequest) (filePath : String) (src : List Byte) : State :=
  { idToToken := mapSet st.idToToken req.id (builtToken req filePath)
    files := mapSet st.files ("tmp/" ++ filePath) src }

/-- Modelled from the spec: static file serving is done by echo's
`middleware.Static("tmp")`, which is not in the source tree.  The spec says a
request path is resolved against the storage root directory and the raw file
bytes are returned if present; `path` is the request path, starting with a
slash. -/
def serveStatic (st : State) (path : String) : Option (List Byte) :=
  mapGet st.files ("tmp" ++ path)

/-- The part of an `https` URL after the host: what follows the first slash
after the scheme. -/
def urlPath (url : String) : Option String :=
  if "https://".data.isPrefixOf url.data then
    match (url.data.drop 8).dropWhile (fun c => decide (c ≠ '/')) with
    | [] => none
    | _ :: path => some (String.mk path)
  else none

/-- A record refers to the stored file `filePath` when that is the path of its
image URL. -/
def refersTo (token : Token) (filePath : String) : Prop :=
  urlPath token.Image = some filePath

instance (token : Token) (filePath : String) : Decidable (refersTo token filePath) :=
  inferInstanceAs (Decidable (urlPath token.Image = some filePath))

/-! ## Sequences of calls -/

/-- One call of the service. -/
inductive Call where
  | register (req : PostRequest) (env : Env)
  | get (param : String)

/-- The state after one call. -/
def step (st : State) : Call → State
  | .register req env => (handlePostToken st req env).1
  | .get _ => st

/-- The state after a sequence of calls. -/
def run (st : State) (calls : List Call) : State :=
  calls.foldl step st

/-- The store invariant: every key equals the `Id` of its record and is
accepted by `canParseInt`. -/
def StoreInv (m : GoMap Token) : Prop :=
  ∀ e ∈ m, e.2.Id = e.1 ∧ canParseInt e.1 = true

/-! ## Sample calls -/

def seedToken : Token :=
  { Id := "7", Name := "Seed", Description := "", ExternalUrl := "",
    Image := "https://nft.example.com/images/11111111-1111-4111-9111-111111111111" }

/-- A store holding one record, under the id 7. -/
def seedState : State :=
  { idToToken := [("7", seedToken)]
    files := [("tmp/images/11111111-1111-4111-9111-111111111111", [9])] }

def photoUpload : FileHeader :=
  { Filename := "photo.png", Open := .ok [137, 80, 78, 71] }

def blobUpload : FileHeader :=
  { Filename := "blob", Open := .ok [1, 2, 3] }

def firstRequest : PostRequest :=
  { id := "42", name := "First", description := "first token",
    externalUrl := "https://example.org/first", image := .ok photoUpload,
    Host := "nft.example.com" }

def secondRequest : PostRequest :=
  { id := "42", name := "Second", description := "second token",
    externalUrl := "https://example.org/second", image := .ok blobUpload,
    Host := "nft.example.com" }

def firstEnv : Env :=
  { rander := List.range 16, create := none, copy := none }

def secondEnv : Env :=
  { rander := List.replicate 16 255, create := none, copy := none }

/-- An environment in which `io.Copy` fails after two bytes. -/
def fullDiskEnv : Env :=
  { rander := List.range 16, create := none, copy := some (2, "no space left on device") }

def firstPath : String := "images/00010203-0405-4607-8809-0a0b0c0d0e0f.png"

def firstToken : Token :=
  { Id := "42", Name := "First", Description := "first token",
    ExternalUrl := "https://example.org/first",
    Image := "https://nft.example.com/images/00010203-0405-4607-8809-0a0b0c0d0e0f.png" }

def secondToken : Token :=
  { Id := "42", Name := "Second", Description := "second token",
    ExternalUrl := "https://example.org/second",
    Image := "https://nft.example.com/images/ffffffff-ffff-4fff-bfff-ffffffffffff" }

/-- The state after `firstRequest` on `seedState`. -/
def afterFirst : State :=
  { idToToken := ("42", firstToken) :: seedState.idToToken
    files := ("tmp/images/00010203-0405-4607-8809-0a0b0c0d0e0f.png", [137, 80, 78, 71]) ::
      seedState.files }

/-- The state after `secondRequest` on `afterFirst`. -/
def afterSecond : State :=
  { idToToken := ("42", secondToken) :: seedState.idToToken
    files := ("tmp/images/ffffffff-ffff-4fff-bfff-ffffffffffff", [1, 2, 3]) :: afterFirst.files }

/-- A request whose id is not a number. -/
def badIdRequest : PostRequest :=
  { id := "forty-two", name := "Bad", description := "", externalUrl := "",
    image := .ok photoUpload, Host := "nft.example.com" }

/-- A second request for the id 42 whose upload has the extension of the
first. -/
def collidingRequest : PostRequest :=
  { id := "42", name := "Second", description := "second token",
    externalUrl := "https://example.org/second",
    image := .ok { Filename := "other.png", Open := .ok [1, 2, 3] },
    Host := "nft.example.com" }

/-- A record under the id 7 whose image is the URL of `firstPath`. -/
def referringToken : Token :=
  { Id := "7", Name := "Seed", Description := "", ExternalUrl := "",
    Image := "https://nft.example.com/images/00010203-0405-4607-8809-0a0b0c0d0e0f.png" }

/-- A store holding `referringToken`. -/
def referringState : State :=
  { idToToken := [("7", referringToken)], files := [] }

/-- A sequence of calls with successes and failures. -/
def sampleCalls : List Call :=
  [.register firstRequest firstEnv, .get "42", .register secondRequest secondEnv,
    .register badIdRequest firstEnv, .get "forty-two", .register firstRequest fullDiskEnv]

end NftExample

namespace NftExample

/-! ## Lemmas on maps -/

theorem mapGet_mapSet_same {β : Type} (m : GoMap β) (k : String) (v : β) :
    mapGet (mapSet m k v) k = some v := by
  simp [mapSet, mapGet]

theorem mapGet_filter_ne {β : Type} (m : GoMap β) (k k' : String) (h : k ≠ k') :
    mapGet (m.filter (fun e => !decide (e.1 = k))) k' = mapGet m k' := by
  induction m with
  | nil => rfl
  | cons e rest ih =>
    obtain ⟨a, v⟩ := e
    by_cases hak : a = k
    · subst hak
      simp [List.filter_cons, mapGet, h, ih]
    · by_cases hak' : a = k'
      · subst hak'
        simp [List.filter_cons, mapGet, hak]
      · simp [List.filter_cons, mapGet, hak, hak', ih]

theorem mapGet_mapSet_other {β : Type} (m : GoMap β) (k k' : String) (v : β) (h : k ≠ k') :
    mapGet (mapSet m k v) k' = mapGet m k' := by
  simp [mapSet, mapGet, h, mapGet_filter_ne m k k' h]

theorem mapCount_mapSet_same {β : Type} (m : GoMap β) (k : String) (v : β) :
    mapCount (mapSet m k v) k = 1 := by
  simp [mapCount, mapSet, List.filter_cons, List.filter_filter]

theorem mem_mapSet {β : Type} {m : GoMap β} {k : String} {v : β} {e : String × β}
    (h : e ∈ mapSet m k v) : e = (k, v) ∨ (e ∈ m ∧ e.1 ≠ k) := by
  simpa [mapSet, List.mem_filter] using h

/-! ## Lemmas on `canParseInt` -/

theorem digitVal_lt_ten (ch : Char) : digitVal ch < 10 ↔ isDecimalDigit ch = true := by
  unfold digitVal isDecimalDigit
  simp only [Bool.and_eq_true, decide_eq_true_eq, Char.le_def, UInt32.le_def, BitVec.le_def,
    Char.toNat, UInt32.toNat]
  have h0 : ('0' : Char).val.toBitVec.toNat = 48 := rfl
  have h9 : ('9' : Char).val.toBitVec.toNat = 57 := rfl
  have ha : ('a' : Char).val.toBitVec.toNat = 97 := rfl
  have hz : ('z' : Char).val.toBitVec.toNat = 122 := rfl
  have hA : ('A' : Char).val.toBitVec.toNat = 65 := rfl
  have hZ : ('Z' : Char).val.toBitVec.toNat = 90 := rfl
  simp only [h0, h9, ha, hz, hA, hZ]
  split_ifs <;> omega

theorem natScan_digits (cs : List Char) (h : cs.all isDecimalDigit = true) (z count : Nat) :
    ∃ z', natScan 10 cs z count = (z', count + cs.length, []) := by
  induction cs generalizing z count with
  | nil => exact ⟨z, rfl⟩
  | cons c cs ih =>
    simp only [List.all_cons, Bool.and_eq_true] at h
    have hc : ¬ digitVal c ≥ 10 := by
      have := (digitVal_lt_ten c).2 h.1
      omega
    obtain ⟨z', hz'⟩ := ih h.2 (z * 10 + digitVal c) (count + 1)
    refine ⟨z', ?_⟩
    simp only [natScan, hc, if_false, hz', List.length_cons, Prod.mk.injEq, and_true, true_and]
    omega

theorem natScan_unread (cs : List Char) (h : cs.all isDecimalDigit = false) (z count : Nat) :
    (natScan 10 cs z count).2.2 ≠ [] := by
  induction cs generalizing z count with
  | nil => simp at h
  | cons c cs ih =>
    by_cases hc : digitVal c ≥ 10
    · simp [natScan, hc]
    · have hd : isDecimalDigit c = true := (digitVal_lt_ten c).1 (by omega)
      have hrest : cs.all isDecimalDigit = false := by
        simpa [List.all_cons, hd] using h
      simpa [natScan, hc] using ih hrest (z * 10 + digitVal c) (count + 1)

theorem scan_isSome (rest : List Char) (neg : Bool) :
    (match natScan 10 rest 0 0 with
      | (z, count, unread) =>
        if count = 0 then (none : Option Int)
        else if unread ≠ [] then none
        else some (if neg then -(z : Int) else (z : Int))).isSome = isDigits rest := by
  cases h : rest.all isDecimalDigit with
  | true =>
    obtain ⟨z', hz'⟩ := natScan_digits rest h 0 0
    rw [hz']
    cases rest with
    | nil => simp [isDigits]
    | cons c cs => simp [isDigits, h]
  | false =>
    have hu := natScan_unread rest h 0 0
    generalize natScan 10 rest 0 0 = r at hu
    obtain ⟨z, count, unread⟩ := r
    simp only at hu
    simp only [isDigits, h, Bool.and_false, hu, ne_eq, not_false_eq_true, if_true]
    split_ifs <;> rfl

theorem canParseInt_eq_isBase10Literal (s : String) : canParseInt s = isBase10Literal s := by
  obtain ⟨cs⟩ := s
  cases cs with
  | nil => rfl
  | cons c cs =>
    simp only [canParseInt, bigIntSetString, isBase10Literal, scanSign]
    by_cases hm : c = '-'
    · subst hm
      simpa using scan_isSome cs true
    · by_cases hp : c = '+'
      · subst hp
        simpa using scan_isSome cs false
      · simpa [hm, hp] using scan_isSome (c :: cs) false

/-! ## Lemmas on the handlers -/

theorem bindPathParamString_empty (value : String) :
    bindPathParamString value "" = (value, none) := by
  unfold bindPathParamString
  split_ifs with h
  · rw [h]
  · rfl

theorem handleGetToken_eq (st : State) (param : String) :
    handleGetToken st param =
      if canParseInt param = false then .httpError StatusBadRequest "failed to parse id"
      else
        match mapGet st.idToToken param with
        | none => .httpError StatusNotFound "not found"
        | some token => .json StatusOK token := by
  unfold handleGetToken
  rw [bindPathParamString_empty]
  cases h : canParseInt param <;> simp [h]

theorem handlePostToken_ok {st : State} {req : PostRequest} {env : Env} {file : FileHeader}
    {src : List Byte} {n : String} (hid : canParseInt req.id = true)
    (himg : req.image = .ok file) (hopen : file.Open = .ok src)
    (hname : getRandomFileName env.rander = .ok n) (hcreate : env.create = none)
    (hcopy : env.copy = none) :
    handlePostToken st req env =
      (registered st req (buildFilePath n (getFileExtension file.Filename)) src,
        .json StatusCreated (builtToken req (buildFilePath n (getFileExtension file.Filename)))) := by
  simp only [handlePostToken, hid, himg, hopen, hname, hcreate, hcopy, registered, builtToken]
  rfl

theorem handlePostToken_json_inv {st st' : State} {req : PostRequest} {env : Env} {code : Nat}
    {tok : Token} (h : handlePostToken st req env = (st', .json code tok)) :
    ∃ file src n, canParseInt req.id = true ∧ req.image = .ok file ∧ file.Open = .ok src ∧
      getRandomFileName env.rander = .ok n ∧ env.create = none ∧ env.copy = none ∧
      code = StatusCreated ∧
      tok = builtToken req (buildFilePath n (getFileExtension file.Filename)) ∧
      st' = registered st req (buildFilePath n (getFileExtension file.Filename)) src := by
  cases hid : canParseInt req.id with
  | false => simp [handlePostToken, hid] at h
  | true =>
    rcases himg : req.image with e | file
    · simp [handlePostToken, hid, himg] at h
    rcases hopen : file.Open with e | src
    · simp [handlePostToken, hid, himg, hopen] at h
    rcases hname : getRandomFileName env.rander with e | n
    · simp [handlePostToken, hid, himg, hopen, hname] at h
    rcases hcreate : env.create with _ | e
    swap
    · simp [handlePostToken, hid, himg, hopen, hname, hcreate] at h
    rcases hcopy : env.copy with _ | e
    swap
    · simp [handlePostToken, hid, himg, hopen, hname, hcreate, hcopy] at h
    rw [handlePostToken_ok hid himg hopen hname hcreate hcopy] at h
    simp only [Prod.mk.injEq, Outcome.json.injEq] at h
    exact ⟨file, src, n, rfl, rfl, hopen, rfl, rfl, rfl, h.2.1.symm, h.2.2.symm, h.1.symm⟩

theorem handlePostToken_idToToken (st : State) (req : PostRequest) (env : Env) :
    (handlePostToken st req env).1.idToToken = st.idToToken ∨
      ∃ filePath, canParseInt req.id = true ∧
        (handlePostToken st req env).2 = .json StatusCreated (builtToken req filePath) ∧
        (handlePostToken st req env).1.idToToken =
          mapSet st.idToToken req.id (builtToken req filePath) := by
  cases hid : canParseInt req.id with
  | false => left; simp [handlePostToken, hid]
  | true =>
    rcases himg : req.image with e | file
    · left; simp [handlePostToken, hid, himg]
    rcases hopen : file.Open with e | src
    · left; simp [handlePostToken, hid, himg, hopen]
    rcases hname : getRandomFileName env.rander with e | n
    · left; simp [handlePostToken, hid, himg, hopen, hname]
    rcases hcreate : env.create with _ | e
    swap
    · left; simp [handlePostToken, hid, himg, hopen, hname, hcreate]
    rcases hcopy : env.copy with _ | e
    swap
    · left; simp [handlePostToken, hid, himg, hopen, hname, hcreate, hcopy]
    right
    rw [handlePostToken_ok hid himg hopen hname hcreate hcopy]
    exact ⟨_, rfl, rfl, rfl⟩

theorem handlePostToken_status_readable (st : State) (req : PostRequest) (env : Env)
    (file : FileHeader) (src : List Byte) (hid : canParseInt req.id = true)
    (himg : req.image = .ok file) (hopen : file.Open = .ok src) :
    (handlePostToken st req env).2.status = StatusInternalServerError ∨
      (handlePostToken st req env).2.status = StatusCreated := by
  rcases hname : getRandomFileName env.rander with e | n
  · left; simp [handlePostToken, hid, himg, hopen, hname, Outcome.status]
  rcases hcreate : env.create with _ | e
  swap
  · left; simp [handlePostToken, hid, himg, hopen, hname, hcreate, Outcome.status]
  rcases hcopy : env.copy with _ | e
  swap
  · left; simp [handlePostToken, hid, himg, hopen, hname, hcreate, hcopy, Outcome.status]
  right
  rw [handlePostToken_ok hid himg hopen hname hcreate hcopy]
  rfl

/-! ## Lemmas on `getFileExtension` -/

theorem splitChars_no_sep (sep : Char) (cs : List Char) (h : sep ∉ cs) :
    splitChars sep cs = [cs] := by
  induction cs with
  | nil => rfl
  | cons c cs ih =>
    have hc : c ≠ sep := fun e => h (by simp [e])
    have hcs : sep ∉ cs := fun e => h (List.mem_cons_of_mem _ e)
    simp [splitChars, hc, ih hcs]

theorem splitChars_append (sep : Char) (a b : List Char) :
    ∃ pre, pre ≠ [] ∧ splitChars sep (a ++ sep :: b) = pre ++ splitChars sep b := by
  induction a with
  | nil => exact ⟨[[]], by simp, by simp [splitChars]⟩
  | cons c a ih =>
    obtain ⟨pre, hne, hpre⟩ := ih
    by_cases hc : c = sep
    · exact ⟨[] :: pre, by simp, by simp [splitChars, hc, hpre]⟩
    · cases pre with
      | nil => exact absurd rfl hne
      | cons p ps => exact ⟨(c :: p) :: ps, by simp, by simp [splitChars, hc, hpre]⟩

theorem getD_length_pred_append_singleton {α : Type} (pre : List α) (x d : α) :
    (pre ++ [x]).getD ((pre ++ [x]).length - 1) d = x := by
  simp [List.getD_eq_getElem?_getD]

theorem getFileExtension_no_dot (f : String) (h : '.' ∉ f.data) : getFileExtension f = "" := by
  simp [getFileExtension, stringsSplit, splitChars_no_sep '.' f.data h]

theorem getFileExtension_append (a b : List Char) (hb : '.' ∉ b) :
    getFileExtension (String.mk (a ++ '.' :: b)) = String.mk b := by
  obtain ⟨pre, hne, hpre⟩ := splitChars_append '.' a b
  rw [splitChars_no_sep '.' b hb] at hpre
  have hlen : 0 < pre.length := List.length_pos.2 hne
  have hmap : stringsSplit (String.mk (a ++ '.' :: b)) '.' =
      pre.map String.mk ++ [String.mk b] := by
    simp [stringsSplit, hpre]
  unfold getFileExtension
  simp only [hmap]
  rw [getD_length_pred_append_singleton]
  simp [hlen]

theorem takeWhile_append_stop {α : Type} (p : α → Bool) (l m : List α) (x : α)
    (hl : ∀ y ∈ l, p y = true) (hx : p x = false) : (l ++ x :: m).takeWhile p = l := by
  induction l with
  | nil => simp [List.takeWhile, hx]
  | cons y l ih =>
    have hy : p y = true := hl y (by simp)
    simp [List.takeWhile, hy, ih (fun z hz => hl z (List.mem_cons_of_mem _ hz))]

theorem finalSegment_append (a b : List Char) (hb : '.' ∉ b) :
    finalSegment (String.mk (a ++ '.' :: b)) = String.mk b := by
  unfold finalSegment
  have : (a ++ '.' :: b).reverse = b.reverse ++ '.' :: a.reverse := by simp
  simp only [this]
  rw [takeWhile_append_stop]
  · simp
  · intro y hy
    have : y ≠ '.' := fun e => hb (by simpa [e] using hy)
    simpa using this
  · simp

theorem exists_last_dot (cs : List Char) (h : '.' ∈ cs) :
    ∃ a b, cs = a ++ '.' :: b ∧ '.' ∉ b := by
  have hr : '.' ∈ cs.reverse := by simpa using h
  obtain ⟨as, bs, hsplit, hnot⟩ := List.eq_append_cons_of_mem hr
  refine ⟨bs.reverse, as.reverse, ?_, by simpa using hnot⟩
  have := congrArg List.reverse hsplit
  simpa using this

/-! ## Lemmas on the random file name -/

theorem hextable_getD_ne_dot (i : Nat) : hextable.getD i '0' ≠ '.' := by
  by_cases h : i < 16
  · interval_cases i <;> decide
  · have hlen : hextable.length ≤ i := by
      have : hextable.length = 16 := rfl
      omega
    rw [List.getD_eq_default _ _ hlen]
    decide

theorem hexEncode_length (src : List Byte) : (hexEncode src).length = 2 * src.length := by
  induction src with
  | nil => rfl
  | cons v src ih =>
    simp only [hexEncode, List.flatMap_cons, List.length_append, List.length_cons,
      List.length_nil] at ih ⊢
    omega

theorem hexEncode_no_dot (src : List Byte) : '.' ∉ hexEncode src := by
  intro h
  simp only [hexEncode, List.mem_flatMap, List.mem_cons, List.mem_singleton,
    List.not_mem_nil, or_false] at h
  obtain ⟨v, -, hv | hv⟩ := h
  · exact hextable_getD_ne_dot _ hv.symm
  · exact hextable_getD_ne_dot _ hv.symm

theorem uuidNewRandom_length {rander uuid : List Byte}
    (h : uuidNewRandom rander = .ok uuid) : uuid.length = 16 := by
  by_cases hlt : rander.length < 16
  · simp [uuidNewRandom, ioReadFull, hlt] at h
  · simp only [uuidNewRandom, ioReadFull, hlt, if_false, Except.ok.injEq] at h
    subst h
    simp only [List.length_set, List.length_map, List.length_take]
    omega

theorem uuidString_length (uuid : List Byte) (h : uuid.length = 16) :
    (uuidString uuid).data.length = 36 := by
  simp only [uuidString, List.length_append, List.length_cons, hexEncode_length,
    List.length_take, List.length_drop, h]
  rfl

theorem uuidString_no_dot (uuid : List Byte) : '.' ∉ (uuidString uuid).data := by
  have hd : ('.' : Char) ≠ '-' := by decide
  simp [uuidString, hexEncode_no_dot, hd]

theorem getRandomFileName_ok {rander : List Byte} {n : String}
    (h : getRandomFileName rander = .ok n) : n.data.length = 36 ∧ '.' ∉ n.data := by
  unfold getRandomFileName at h
  rcases hu : uuidNewRandom rander with e | uuid
  · simp [hu] at h
  · simp only [hu, Except.ok.injEq] at h
    subst h
    exact ⟨uuidString_length uuid (uuidNewRandom_length hu), uuidString_no_dot uuid⟩

/-! ## Lemmas on paths and URLs -/

theorem buildFilePath_empty (n : String) : buildFilePath n "" = "images/" ++ n := by
  simp [buildFilePath]

theorem buildFilePath_nonempty (n ext : String) (h : ext ≠ "") :
    buildFilePath n ext = "images/" ++ n ++ "." ++ ext := by
  have : 0 < ext.length := by
    rcases ext with ⟨cs⟩
    cases cs with
    | nil => exact absurd rfl h
    | cons c cs => simp [String.length]
  simp [buildFilePath, this]

theorem dropWhile_append_stop {α : Type} (p : α → Bool) (l m : List α) (x : α)
    (hl : ∀ y ∈ l, p y = true) (hx : p x = false) : (l ++ x :: m).dropWhile p = x :: m := by
  induction l with
  | nil => simp [List.dropWhile, hx]
  | cons y l ih =>
    have hy : p y = true := hl y (by simp)
    simp [List.dropWhile, hy, ih (fun z hz => hl z (List.mem_cons_of_mem _ hz))]

theorem urlPath_image (host filePath : String) (h : '/' ∉ host.data) :
    urlPath ("https://" ++ host ++ "/" ++ filePath) = some filePath := by
  have hdata : ("https://" ++ host ++ "/" ++ filePath).data =
      'h' :: 't' :: 't' :: 'p' :: 's' :: ':' :: '/' :: '/' :: (host.data ++ '/' :: filePath.data) := by
    simp [String.data_append]
  have hpre : "https://".data = ['h', 't', 't', 'p', 's', ':', '/', '/'] := rfl
  unfold urlPath
  rw [hdata, hpre]
  have hdrop : (host.data ++ '/' :: filePath.data).dropWhile (fun c => !decide (c = '/')) =
      '/' :: filePath.data := by
    apply dropWhile_append_stop
    · intro y hy
      have : y ≠ '/' := fun e => h (by simpa [e] using hy)
      simpa using this
    · simp
  simp [List.isPrefixOf, hdrop]

theorem buildFilePath_data (n ext : String) :
    ∃ sfx, (buildFilePath n ext).data = "images/".data ++ (n.data ++ sfx) := by
  unfold buildFilePath
  split_ifs
  · exact ⟨".".data ++ ext.data, by simp [String.data_append]⟩
  · exact ⟨[], by simp [String.data_append]⟩

theorem buildFilePath_ne {n₁ n₂ : String} (ext₁ ext₂ : String) (hlen : n₁.data.length = n₂.data.length)
    (hne : n₁ ≠ n₂) : buildFilePath n₁ ext₁ ≠ buildFilePath n₂ ext₂ := by
  intro heq
  obtain ⟨s₁, h₁⟩ := buildFilePath_data n₁ ext₁
  obtain ⟨s₂, h₂⟩ := buildFilePath_data n₂ ext₂
  rw [heq, h₂] at h₁
  have := List.append_cancel_left h₁
  exact hne (String.ext (List.append_inj this hlen.symm).1.symm)

theorem tmp_append_ne {p q : String} (h : p ≠ q) : "tmp/" ++ p ≠ "tmp/" ++ q := by
  intro heq
  have hd := congrArg String.data heq
  simp only [String.data_append] at hd
  exact h (String.ext (List.append_cancel_left hd))

theorem mem_mapSet_mapSet {β : Type} {m : GoMap β} {k : String} {v w : β} {e : String × β}
    (h : e ∈ mapSet (mapSet m k v) k w) : e = (k, w) ∨ e ∈ m := by
  rcases mem_mapSet h with rfl | ⟨hmem, hk⟩
  · exact Or.inl rfl
  · rcases mem_mapSet hmem with rfl | ⟨hmem', -⟩
    · exact absurd rfl hk
    · exact Or.inr hmem'

/-! ## Lemmas on sequences of calls -/

theorem step_storeInv (st : State) (c : Call) (h : StoreInv st.idToToken) :
    StoreInv (step st c).idToToken := by
  cases c with
  | get param => exact h
  | register req env =>
    rcases handlePostToken_idToToken st req env with hsame | ⟨filePath, hid, -, hset⟩
    · simp only [step, hsame]
      exact h
    · simp only [step, hset]
      intro e he
      rcases mem_mapSet he with rfl | ⟨hmem, -⟩
      · exact ⟨rfl, hid⟩
      · exact h e hmem

theorem run_storeInv (calls : List Call) (st : State) (h : StoreInv st.idToToken) :
    StoreInv (run st calls).idToToken := by
  induction calls generalizing st with
  | nil => exact h
  | cons c calls ih => exact ih (step st c) (step_storeInv st c h)

theorem run_mapGet_none (id : String) (calls : List Call) (st : State)
    (hcalls : ∀ req env, Call.register req env ∈ calls → req.id ≠ id)
    (hst : mapGet st.idToToken id = none) : mapGet (run st calls).idToToken id = none := by
  induction calls generalizing st with
  | nil => exact hst
  | cons c calls ih =>
    refine ih (step st c) (fun req env h => hcalls req env (List.mem_cons_of_mem _ h)) ?_
    cases c with
    | get param => exact hst
    | register req env =>
      rcases handlePostToken_idToToken st req env with hsame | ⟨filePath, -, -, hset⟩
      · simp only [step, hsame]
        exact hst
      · simp only [step, hset]
        rw [mapGet_mapSet_other _ _ _ _ (hcalls req env (List.mem_cons_self _ _))]
        exact hst

theorem handleGetToken_valid (st : State) (id : String) (hvalid : isBase10Literal id = true) :
    handleGetToken st id =
      match mapGet st.idToToken id with
      | none => .httpError StatusNotFound "not found"
      | some token => .json StatusOK token := by
  rw [handleGetToken_eq, canParseInt_eq_isBase10Literal, hvalid]
  rfl

/-! ## The claims -/

/-- C1: `get-token` with id `s` answers InvalidArgument (status 400) exactly
when `s` is not a base-10 integer literal (an optional sign followed by one or
more decimal digits, of any length), and so does `register-token` with id `s`
and a readable image file; the empty string is rejected and
`999999999999999999999999999` is accepted by both. -/
theorem id_validation (st : State) (s name description externalUrl host filename : String)
    (src : List Byte) (env : Env) :
    ((handleGetToken st s).status = StatusBadRequest ↔ isBase10Literal s = false) ∧
    ((handlePostToken st ⟨s, name, description, externalUrl, .ok ⟨filename, .ok src⟩, host⟩
        env).2.status = StatusBadRequest ↔ isBase10Literal s = false) ∧
    (handleGetToken st "").status = StatusBadRequest ∧
    (handlePostToken st ⟨"", name, description, externalUrl, .ok ⟨filename, .ok src⟩, host⟩
        env).2.status = StatusBadRequest ∧
    (handleGetToken st "999999999999999999999999999").status ≠ StatusBadRequest ∧
    (handlePostToken st ⟨"999999999999999999999999999", name, description, externalUrl,
        .ok ⟨filename, .ok src⟩, host⟩ env).2.status ≠ StatusBadRequest := by
  have hget : ∀ t, ((handleGetToken st t).status = StatusBadRequest ↔
      isBase10Literal t = false) := by
    intro t
    rw [handleGetToken_eq, canParseInt_eq_isBase10Literal]
    cases isBase10Literal t with
    | false => simp [Outcome.status]
    | true =>
      cases mapGet st.idToToken t <;>
        simp [Outcome.status, StatusBadRequest, StatusNotFound, StatusOK]
  have hpost : ∀ t, ((handlePostToken st
      ⟨t, name, description, externalUrl, .ok ⟨filename, .ok src⟩, host⟩ env).2.status =
        StatusBadRequest ↔ isBase10Literal t = false) := by
    intro t
    cases hl : isBase10Literal t with
    | false =>
      have hid : canParseInt t = false := by rw [canParseInt_eq_isBase10Literal, hl]
      simp [handlePostToken, hid, Outcome.status]
    | true =>
      have hid : canParseInt t = true := by rw [canParseInt_eq_isBase10Literal, hl]
      rcases handlePostToken_status_readable st
          ⟨t, name, description, externalUrl, .ok ⟨filename, .ok src⟩, host⟩ env
          ⟨filename, .ok src⟩ src hid rfl rfl with h | h <;>
        simp [h, StatusBadRequest, StatusInternalServerError, StatusCreated]
  refine ⟨hget s, hpost s, (hget "").2 (by decide), (hpost "").2 (by decide), ?_, ?_⟩
  · intro h
    exact absurd ((hget _).1 h) (by decide)
  · intro h
    exact absurd ((hpost _).1 h) (by decide)

/-- C2: round trip.  When `register-token` succeeds and returns the record `r`
with status Created, `get-token` with the same id on the resulting store
succeeds with status OK and returns exactly `r`, whose id, name, description
and external_url are the submitted values. -/
theorem register_then_get (st st' : State) (req : PostRequest) (env : Env) (r : Token)
    (h : handlePostToken st req env = (st', .json StatusCreated r)) :
    handleGetToken st' req.id = .json StatusOK r ∧
      r.Id = req.id ∧ r.Name = req.name ∧ r.Description = req.description ∧
      r.ExternalUrl = req.externalUrl := by
  obtain ⟨file, src, n, hid, -, -, -, -, -, -, htok, hst⟩ := handlePostToken_json_inv h
  subst htok hst
  refine ⟨?_, rfl, rfl, rfl, rfl⟩
  rw [handleGetToken_eq]
  simp [hid, registered, mapGet_mapSet_same]

/-- C4: missing file.  `register-token` called without an image file answers
InvalidArgument (status 400) whatever the id and the other fields are, and
leaves the state as it was: the map is unchanged and no file is written. -/
theorem missing_file (st : State) (id name description externalUrl host err : String)
    (env : Env) :
    (handlePostToken st ⟨id, name, description, externalUrl, .error err, host⟩ env).2.status =
        StatusBadRequest ∧
      (handlePostToken st ⟨id, name, description, externalUrl, .error err, host⟩ env).1 = st := by
  cases hid : canParseInt id <;> simp [handlePostToken, hid, Outcome.status]

/-- C5: unknown id.  For a valid base-10 integer literal `id`, `get-token`
answers NotFound (status 404) when the store has no record under `id`, and
only then; this is the case in every store reached from the empty map by calls
that never registered `id`. -/
theorem unknown_id (st : State) (id : String) (hvalid : isBase10Literal id = true) :
    (mapGet st.idToToken id = none →
        handleGetToken st id = .httpError StatusNotFound "not found") ∧
      ((handleGetToken st id).status = StatusNotFound ↔ mapGet st.idToToken id = none) ∧
      (∀ (files : GoMap (List Byte)) (calls : List Call),
        (∀ req env, Call.register req env ∈ calls → req.id ≠ id) →
        handleGetToken (run { idToToken := [], files := files } calls) id =
          .httpError StatusNotFound "not found") := by
  refine ⟨?_, ?_, fun files calls hcalls => ?_⟩
  · rw [handleGetToken_valid st id hvalid]
    intro h
    rw [h]
  · rw [handleGetToken_valid st id hvalid]
    cases mapGet st.idToToken id <;> simp [Outcome.status, StatusNotFound, StatusOK]
  · rw [handleGetToken_valid _ id hvalid,
      run_mapGet_none id calls { idToToken := [], files := files } hcalls rfl]

/-- C6: extension preservation.  `getFileExtension f` is the final
dot-separated segment of `f` when `f` contains a dot and the empty string when
it contains none.  A successful `register-token` whose file name is
`stem.ext`, with `ext` non-empty and free of dots, returns an image URL ending
in `.ext`; with a file name free of dots the image URL ends with the generated
random name, and its path carries no extension. -/
theorem extension_preservation :
    (∀ f : String, ('.' ∈ f.data → getFileExtension f = finalSegment f) ∧
      ('.' ∉ f.data → getFileExtension f = "")) ∧
    (∀ (st st' : State) (req : PostRequest) (env : Env) (tok : Token) (file : FileHeader)
        (stem ext : String),
      handlePostToken st req env = (st', .json StatusCreated tok) → req.image = .ok file →
      file.Filename = stem ++ "." ++ ext → ext ≠ "" → '.' ∉ ext.data →
      getFileExtension file.Filename = ext ∧ ("." ++ ext).data <:+ tok.Image.data ∧
        ∃ n, getRandomFileName env.rander = .ok n ∧
          tok.Image = "https://" ++ req.Host ++ "/images/" ++ n ++ "." ++ ext) ∧
    (∀ (st st' : State) (req : PostRequest) (env : Env) (tok : Token) (file : FileHeader),
      handlePostToken st req env = (st', .json StatusCreated tok) → req.image = .ok file →
      '.' ∉ file.Filename.data →
      ∃ n, getRandomFileName env.rander = .ok n ∧
        tok.Image = "https://" ++ req.Host ++ "/images/" ++ n ∧
        n.data <:+ tok.Image.data ∧ getFileExtension ("images/" ++ n) = "") := by
  refine ⟨fun f => ⟨fun hdot => ?_, getFileExtension_no_dot f⟩, ?_, ?_⟩
  · obtain ⟨a, b, hf, hb⟩ := exists_last_dot f.data hdot
    have hf' : f = String.mk (a ++ '.' :: b) := String.ext hf
    rw [hf', getFileExtension_append a b hb, finalSegment_append a b hb]
  · intro st st' req env tok file stem ext h himg hname hne hdot
    obtain ⟨file', src, n, -, himg', -, hn, -, -, -, htok, -⟩ := handlePostToken_json_inv h
    have hfile : file' = file := by
      rw [himg] at himg'
      exact (Except.ok.inj himg').symm
    subst hfile
    have hext : getFileExtension file'.Filename = ext := by
      have : file'.Filename = String.mk (stem.data ++ '.' :: ext.data) := by
        rw [hname]
        exact String.ext (by simp [String.data_append])
      rw [this, getFileExtension_append _ _ hdot]
    have himage : tok.Image = "https://" ++ req.Host ++ "/images/" ++ n ++ "." ++ ext := by
      rw [htok, hext, buildFilePath_nonempty n ext hne]
      exact String.ext (by simp [builtToken, String.data_append])
    refine ⟨hext, ?_, n, hn, himage⟩
    rw [himage]
    exact ⟨("https://" ++ req.Host ++ "/images/" ++ n).data, by simp [String.data_append]⟩
  · intro st st' req env tok file h himg hdot
    obtain ⟨file', src, n, -, himg', -, hn, -, -, -, htok, -⟩ := handlePostToken_json_inv h
    have hfile : file' = file := by
      rw [himg] at himg'
      exact (Except.ok.inj himg').symm
    subst hfile
    have himage : tok.Image = "https://" ++ req.Host ++ "/images/" ++ n := by
      rw [htok, getFileExtension_no_dot _ hdot, buildFilePath_empty]
      exact String.ext (by simp [builtToken, String.data_append])
    refine ⟨n, hn, himage, ?_, ?_⟩
    · rw [himage]
      exact ⟨("https://" ++ req.Host ++ "/images/").data, by simp [String.data_append]⟩
    · apply getFileExtension_no_dot
      have hd : '.' ∉ "images/".data := by decide
      simp [String.data_append, hd, (getRandomFileName_ok hn).2]

/-- C7: image URL and stored file.  After a successful `register-token` with
request host `h`, generated random name `n` and upload file name `f`, the
image of the returned record is `https://h/images/n` when the extension of `f`
is empty and `https://h/images/n.ext` otherwise; the file store holds the
uploaded bytes at `tmp/` followed by the part of that URL after the host, and
the static file route returns exactly these bytes for that path. -/
theorem image_url_and_file (st st' : State) (req : PostRequest) (env : Env) (tok : Token)
    (h : handlePostToken st req env = (st', .json StatusCreated tok)) :
    ∃ file src n filePath, req.image = .ok file ∧ file.Open = .ok src ∧
      getRandomFileName env.rander = .ok n ∧
      tok.Image = (if getFileExtension file.Filename = "" then
          "https://" ++ req.Host ++ "/images/" ++ n
        else "https://" ++ req.Host ++ "/images/" ++ n ++ "." ++ getFileExtension file.Filename) ∧
      filePath = (if getFileExtension file.Filename = "" then "images/" ++ n
        else "images/" ++ n ++ "." ++ getFileExtension file.Filename) ∧
      tok.Image = "https://" ++ req.Host ++ "/" ++ filePath ∧
      ('/' ∉ req.Host.data → urlPath tok.Image = some filePath) ∧
      mapGet st'.files ("tmp/" ++ filePath) = some src ∧
      serveStatic st' ("/" ++ filePath) = some src := by
  obtain ⟨file, src, n, -, himg, hopen, hn, -, -, -, htok, hst⟩ := handlePostToken_json_inv h
  refine ⟨file, src, n, buildFilePath n (getFileExtension file.Filename), himg, hopen, hn,
    ?_, ?_, ?_, ?_, ?_, ?_⟩
  · rw [htok]
    by_cases hext : getFileExtension file.Filename = ""
    · rw [hext, buildFilePath_empty, if_pos rfl]
      exact String.ext (by simp [builtToken, String.data_append])
    · rw [buildFilePath_nonempty n _ hext, if_neg hext]
      exact String.ext (by simp [builtToken, String.data_append])
  · by_cases hext : getFileExtension file.Filename = ""
    · rw [hext, buildFilePath_empty, if_pos rfl]
    · rw [buildFilePath_nonempty n _ hext, if_neg hext]
  · rw [htok]
    rfl
  · intro hhost
    rw [htok]
    exact urlPath_image req.Host _ hhost
  · rw [hst]
    exact mapGet_mapSet_same _ _ _
  · rw [hst]
    have hpath : "tmp" ++ ("/" ++ buildFilePath n (getFileExtension file.Filename)) =
        "tmp/" ++ buildFilePath n (getFileExtension file.Filename) :=
      String.ext (by simp [String.data_append])
    simp only [serveStatic, registered, hpath]
    exact mapGet_mapSet_same _ _ _

/-- C8: store invariant.  In every state reached from the empty map by a
sequence of `register-token` and `get-token` calls, successful or failing, the
key of every entry equals the `Id` of the record stored under it and is a
valid base-10 integer literal. -/
theorem store_invariant (files : GoMap (List Byte)) (calls : List Call) :
    ∀ e ∈ (run { idToToken := [], files := files } calls).idToToken,
      e.2.Id = e.1 ∧ isBase10Literal e.1 = true := by
  intro e he
  have hinv := run_storeInv calls { idToToken := [], files := files }
    (fun e he => absurd he (List.not_mem_nil e)) e he
  exact ⟨hinv.1, by rw [← canParseInt_eq_isBase10Literal]; exact hinv.2⟩

/-- C9: disk failure.  For a `register-token` call with a valid id and a
readable image file, when creating the destination file or copying the
uploaded bytes fails the client receives status 500 (an Internal error, not
400 or 201) and the map is left as it was; once the random name has been
generated, the handler returns the error of the failing operation. -/
theorem disk_failure (st : State) (req : PostRequest) (env : Env) (file : FileHeader)
    (src : List Byte) (hid : isBase10Literal req.id = true) (himg : req.image = .ok file)
    (hopen : file.Open = .ok src) (hfail : env.create ≠ none ∨ env.copy ≠ none) :
    (handlePostToken st req env).2.status = StatusInternalServerError ∧
      (handlePostToken st req env).2.status ≠ StatusBadRequest ∧
      (handlePostToken st req env).2.status ≠ StatusCreated ∧
      (handlePostToken st req env).1.idToToken = st.idToToken ∧
      (∀ n, getRandomFileName env.rander = .ok n →
        ∃ err, (handlePostToken st req env).2 = .error err) := by
  have hid' : canParseInt req.id = true := by rw [canParseInt_eq_isBase10Literal, hid]
  have key : (handlePostToken st req env).2.status = StatusInternalServerError ∧
      (handlePostToken st req env).1.idToToken = st.idToToken ∧
      (∀ n, getRandomFileName env.rander = .ok n →
        ∃ err, (handlePostToken st req env).2 = .error err) := by
    rcases hname : getRandomFileName env.rander with e | n
    · simp [handlePostToken, hid', himg, hopen, hname, Outcome.status]
    rcases hcreate : env.create with _ | e
    swap
    · simp [handlePostToken, hid', himg, hopen, hname, hcreate, Outcome.status]
    rcases hcopy : env.copy with _ | e
    · rcases hfail with hc | hc
      · exact absurd hcreate hc
      · exact absurd hcopy hc
    · simp [handlePostToken, hid', himg, hopen, hname, hcreate, hcopy, Outcome.status]
  refine ⟨key.1, ?_, ?_, key.2.1, key.2.2⟩
  · rw [key.1]
    decide
  · rw [key.1]
    decide

/-- C10: ids are compared as strings.  After a successful `register-token`
with id `a`, `get-token` with any other string `b` answers what it answered
before, also when `a` and `b` are literals of the same integer: NotFound when
`b` is a valid literal without a record; and the record stored under `a`
carries the id `a` unchanged. -/
theorem ids_compared_as_strings (st st' : State) (req : PostRequest) (env : Env) (tok : Token)
    (b : String) (hne : req.id ≠ b)
    (h : handlePostToken st req env = (st', .json StatusCreated tok)) :
    handleGetToken st' b = handleGetToken st b ∧
      (isBase10Literal b = true → mapGet st.idToToken b = none →
        handleGetToken st' b = .httpError StatusNotFound "not found") ∧
      mapGet st'.idToToken req.id = some tok ∧ tok.Id = req.id ∧
      isBase10Literal req.id = true := by
  obtain ⟨file, src, n, hid, -, -, -, -, -, -, htok, hst⟩ := handlePostToken_json_inv h
  have hmap : mapGet st'.idToToken b = mapGet st.idToToken b := by
    rw [hst]
    exact mapGet_mapSet_other _ _ _ _ hne
  have hget : handleGetToken st' b = handleGetToken st b := by
    rw [handleGetToken_eq, handleGetToken_eq, hmap]
  refine ⟨hget, ?_, ?_, ?_, ?_⟩
  · intro hb hnone
    rw [hget, handleGetToken_valid st b hb, hnone]
  · rw [hst, htok]
    exact mapGet_mapSet_same _ _ _
  · rw [htok]
    rfl
  · rw [← canParseInt_eq_isBase10Literal]
    exact hid

/-! ## The claims on sample calls -/

theorem id_validation_witness :
    (handleGetToken seedState "12a").status = StatusBadRequest ∧
      (handleGetToken seedState "-7").status ≠ StatusBadRequest := by
  have h := (id_validation seedState "12a" "" "" "" "" "" [] firstEnv).1
  have h' := (id_validation seedState "-7" "" "" "" "" "" [] firstEnv).1
  exact ⟨h.2 (by decide), fun e => absurd (h'.1 e) (by decide)⟩

theorem register_then_get_witness :
    handlePostToken seedState firstRequest firstEnv =
        (afterFirst, .json StatusCreated firstToken) ∧
      handleGetToken afterFirst "42" = .json StatusOK firstToken ∧
      firstToken.Id = "42" ∧ firstToken.Name = "First" ∧
      firstToken.Description = "first token" ∧
      firstToken.ExternalUrl = "https://example.org/first" :=
  ⟨by decide,
    register_then_get seedState afterFirst firstRequest firstEnv firstToken (by decide)⟩

theorem unknown_id_witness :
    isBase10Literal "999999999999999999999999999" = true ∧
      mapGet afterFirst.idToToken "999999999999999999999999999" = none ∧
      (handleGetToken afterFirst "999999999999999999999999999").status = StatusNotFound ∧
      handleGetToken (run { idToToken := [], files := [] } sampleCalls)
        "999999999999999999999999999" = .httpError StatusNotFound "not found" := by
  have h := unknown_id afterFirst "999999999999999999999999999" (by decide)
  refine ⟨by decide, by decide, h.2.1.2 (by decide), h.2.2 [] sampleCalls ?_⟩
  intro req env hmem
  simp only [sampleCalls, List.mem_cons, Call.register.injEq, List.mem_singleton,
    List.not_mem_nil, or_false] at hmem
  rcases hmem with ⟨rfl, -⟩ | h | ⟨rfl, -⟩ | ⟨rfl, -⟩ | h | ⟨rfl, -⟩
  · decide
  · exact absurd h (by simp)
  · decide
  · decide
  · exact absurd h (by simp)
  · decide

theorem missing_file_witness :
    (handlePostToken seedState
        ⟨"42", "First", "", "", .error "http: no such file", "nft.example.com"⟩ firstEnv).2.status =
        StatusBadRequest ∧
      (handlePostToken seedState
        ⟨"42", "First", "", "", .error "http: no such file", "nft.example.com"⟩ firstEnv).1 =
        seedState :=
  missing_file seedState "42" "First" "" "" "nft.example.com" "http: no such file" firstEnv

theorem extension_preservation_witness :
    getFileExtension "archive.tar.gz" = finalSegment "archive.tar.gz" ∧
      getFileExtension "photo.png" = "png" ∧
      ".png".data <:+ firstToken.Image.data ∧
      getFileExtension "blob" = "" ∧
      ∃ n, getRandomFileName secondEnv.rander = .ok n ∧
        secondToken.Image = "https://" ++ secondRequest.Host ++ "/images/" ++ n ∧
        n.data <:+ secondToken.Image.data ∧ getFileExtension ("images/" ++ n) = "" := by
  obtain ⟨hseg, hext, hnone⟩ := extension_preservation
  have h1 := hext seedState afterFirst firstRequest firstEnv firstToken photoUpload "photo" "png"
    (by decide) rfl (by decide) (by decide) (by decide)
  have h2 := hnone afterFirst afterSecond secondRequest secondEnv secondToken blobUpload
    (by decide) rfl (by decide)
  exact ⟨(hseg "archive.tar.gz").1 (by decide), h1.1, h1.2.1, (hseg "blob").2 (by decide), h2⟩

theorem image_url_and_file_witness :
    handlePostToken seedState firstRequest firstEnv =
        (afterFirst, .json StatusCreated firstToken) ∧
      firstToken.Image = "https://nft.example.com/" ++ firstPath ∧
      urlPath firstToken.Image = some firstPath ∧
      mapGet afterFirst.files ("tmp/" ++ firstPath) = some [137, 80, 78, 71] ∧
      serveStatic afterFirst ("/" ++ firstPath) = some [137, 80, 78, 71] := by
  obtain ⟨file, src, n, filePath, himg, hopen, hn, -, hpath, hurl, hafter, hfile, hstatic⟩ :=
    image_url_and_file seedState afterFirst firstRequest firstEnv firstToken (by decide)
  have hfile' : photoUpload = file := Except.ok.inj himg
  subst hfile'
  have hsrc : [137, 80, 78, 71] = src := Except.ok.inj hopen
  subst hsrc
  have hname : getRandomFileName firstEnv.rander = .ok "00010203-0405-4607-8809-0a0b0c0d0e0f" := by
    decide
  rw [hname] at hn
  have hn' : "00010203-0405-4607-8809-0a0b0c0d0e0f" = n := Except.ok.inj hn
  subst hn'
  have hp : filePath = firstPath := by
    rw [hpath]
    decide
  subst hp
  exact ⟨by decide, hurl, hafter (by decide), hfile, hstatic⟩

theorem store_invariant_witness :
    ("42", secondToken) ∈ (run { idToToken := [], files := [] } sampleCalls).idToToken ∧
      secondToken.Id = "42" ∧ isBase10Literal "42" = true :=
  ⟨by decide, store_invariant [] sampleCalls ("42", secondToken) (by decide)⟩

theorem disk_failure_witness :
    isBase10Literal firstRequest.id = true ∧ fullDiskEnv.copy ≠ none ∧
      (handlePostToken seedState firstRequest fullDiskEnv).2.status =
        StatusInternalServerError ∧
      (handlePostToken seedState firstRequest fullDiskEnv).1.idToToken = seedState.idToToken ∧
      ∃ err, (handlePostToken seedState firstRequest fullDiskEnv).2 = .error err := by
  have h := disk_failure seedState firstRequest fullDiskEnv photoUpload [137, 80, 78, 71]
    (by decide) rfl rfl (Or.inr (by decide))
  exact ⟨by decide, by decide, h.1, h.2.2.2.1,
    h.2.2.2.2 "00010203-0405-4607-8809-0a0b0c0d0e0f" (by decide)⟩

theorem ids_compared_as_strings_witness :
    bigIntSetString "42" 10 = bigIntSetString "042" 10 ∧
      bigIntSetString "42" 10 = bigIntSetString "+42" 10 ∧
      handleGetToken afterFirst "042" = handleGetToken seedState "042" ∧
      handleGetToken afterFirst "042" = .httpError StatusNotFound "not found" ∧
      handleGetToken afterFirst "+42" = .httpError StatusNotFound "not found" ∧
      mapGet afterFirst.idToToken "42" = some firstToken ∧ firstToken.Id = "42" := by
  have h := ids_compared_as_strings seedState afterFirst firstRequest firstEnv firstToken "042"
    (by decide) (by decide)
  have h' := ids_compared_as_strings seedState afterFirst firstRequest firstEnv firstToken "+42"
    (by decide) (by decide)
  exact ⟨by decide, by decide, h.1, h.2.1 (by decide) (by decide),
    h'.2.1 (by decide) (by decide), h.2.2.1, h.2.2.2.1⟩

end NftExample
